import Mathlib

/-!
Shallow embedding of the ICMPv6 selector parsing/formatting engine of
`extensions/libip6t_icmp6.c` (iptables fork), together with proofs of the
specification's claims about it.

Machine integers (`uint8_t`, `unsigned int`, `uint32_t`) are modelled as
`Nat` with explicit bounds or `% 2^32` where the C code can overflow;
functions that call `xtables_error` (which never returns) are modelled as
`Except`-valued functions.
-/

namespace Icmp6

/-- One entry of the static `icmpv6_codes` table of the C source:
a symbolic name together with the ICMPv6 type and code range it denotes. -/
structure IcmpEntry where
  name : String
  type : Nat
  code_min : Nat
  code_max : Nat
deriving DecidableEq

/-- The `icmpv6_codes` catalogue, entry for entry, in the order of the C
source (array lines 19-59 of the source file). `0xFF` is written `255`. -/
def icmpv6_codes : List IcmpEntry := [
  ⟨"destination-unreachable", 1, 0, 255⟩,
  ⟨"no-route", 1, 0, 0⟩,
  ⟨"communication-prohibited", 1, 1, 1⟩,
  ⟨"beyond-scope", 1, 2, 2⟩,
  ⟨"address-unreachable", 1, 3, 3⟩,
  ⟨"port-unreachable", 1, 4, 4⟩,
  ⟨"failed-policy", 1, 5, 5⟩,
  ⟨"reject-route", 1, 6, 6⟩,
  ⟨"packet-too-big", 2, 0, 255⟩,
  ⟨"time-exceeded", 3, 0, 255⟩,
  ⟨"ttl-exceeded", 3, 0, 255⟩,
  ⟨"ttl-zero-during-transit", 3, 0, 0⟩,
  ⟨"ttl-zero-during-reassembly", 3, 1, 1⟩,
  ⟨"parameter-problem", 4, 0, 255⟩,
  ⟨"bad-header", 4, 0, 0⟩,
  ⟨"unknown-header-type", 4, 1, 1⟩,
  ⟨"unknown-option", 4, 2, 2⟩,
  ⟨"echo-request", 128, 0, 255⟩,
  ⟨"ping", 128, 0, 255⟩,
  ⟨"echo-reply", 129, 0, 255⟩,
  ⟨"pong", 129, 0, 255⟩,
  ⟨"router-solicitation", 133, 0, 255⟩,
  ⟨"router-advertisement", 134, 0, 255⟩,
  ⟨"neighbour-solicitation", 135, 0, 255⟩,
  ⟨"neighbor-solicitation", 135, 0, 255⟩,
  ⟨"neighbour-advertisement", 136, 0, 255⟩,
  ⟨"neighbor-advertisement", 136, 0, 255⟩,
  ⟨"redirect", 137, 0, 255⟩]

/-- The candidate test of `parse_icmpv6_type`:
`strncasecmp(icmpv6_codes[i].name, icmpv6type, strlen(icmpv6type)) == 0`,
which holds exactly when the input is a case-insensitive prefix of the
entry name (`strncasecmp` stops at the terminator of the shorter string,
so a name shorter than the input never passes). First argument: the
input, second argument: the entry name. -/
def ciStarts : List Char → List Char → Bool
  | [], _ => true
  | _ :: _, [] => false
  | a :: as, b :: bs => (a.toLower == b.toLower) && ciStarts as bs

/-- The error exits of the C module (each is an `xtables_error` call that
terminates the parse); the payloads are the strings interpolated into the
corresponding message. -/
inductive ParseErr where
  | ambiguous (input first second : String)
  | invalidType (raw : String)
  | invalidCode (raw : String)
  | invalidRange (raw : String)
deriving DecidableEq

/-- The name-scanning loop of `parse_icmpv6_type` (lines 108-120): walk
the table keeping the first candidate; on a second candidate fail at once
with the names of the first (`match`) and current (`i`) candidates. The
accumulator models the `match` index (`none` for `match == limit`). -/
def scanLoop (inp : List Char) :
    List IcmpEntry → Option IcmpEntry → Except (String × String) (Option IcmpEntry)
  | [], acc => .ok acc
  | e :: rest, acc =>
    if ciStarts inp e.name.data then
      match acc with
      | some m => .error (m.name, e.name)
      | none => scanLoop inp rest (some e)
    else scanLoop inp rest acc

/-- ASCII `isspace` of the C locale, as used by `xtables_strtoul`. -/
def cIsSpace (c : Char) : Bool :=
  c == ' ' || c == '\t' || c == '\n' || c == '\x0b' || c == '\x0c' || c == '\r'

/-- Value of a hexadecimal digit character, `none` for non-digits. -/
def digitVal (c : Char) : Option Nat :=
  if '0' ≤ c ∧ c ≤ '9' then some (c.toNat - '0'.toNat)
  else if 'a' ≤ c ∧ c ≤ 'f' then some (c.toNat - 'a'.toNat + 10)
  else if 'A' ≤ c ∧ c ≤ 'F' then some (c.toNat - 'A'.toNat + 10)
  else none

/-- Accumulate a maximal run of digits of base `b`, returning the value
and the unconsumed remainder. -/
def parseDigits (b : Nat) : List Char → Nat → Nat × List Char
  | [], acc => (acc, [])
  | c :: r, acc =>
    match digitVal c with
    | some v => if v < b then parseDigits b r (acc * b + v) else (acc, c :: r)
    | none => (acc, c :: r)

/-- Modelled from the spec: the C library conversion `strtoumax(s, &end, 0)`
underlying `xtables_strtoui` (libxtables, not under src/). Base 0 means:
skip leading whitespace and an optional sign (a leading minus is already
rejected by the `xtables_strtoul` wrapper below, so only a plus is
modelled here), then a `0x`/`0X` prefix followed by a hex digit selects
base 16, a leading `0` selects base 8, anything else base 10. Returns the
value and the unconsumed suffix, or `none` when no digits were consumed
(the `my_end == s` case of the wrapper). -/
def strtoumax0 (l : List Char) : Option (Nat × List Char) :=
  let t1 := l.dropWhile cIsSpace
  let t2 := match t1 with | '+' :: r => r | _ => t1
  match t2 with
  | '0' :: rest =>
    match rest with
    | c :: d :: r =>
      if (c == 'x' || c == 'X') && (digitVal d).isSome then
        some (parseDigits 16 (d :: r) 0)
      else some (parseDigits 8 rest 0)
    | _ => some (parseDigits 8 rest 0)
  | c :: r =>
    if '0' ≤ c ∧ c ≤ '9' then some (parseDigits 10 (c :: r) 0) else none
  | [] => none

/-- Modelled from the spec: `xtables_strtoui(buf, NULL, &n, 0, UINT8_MAX)`
(libxtables, not under src/), the "unsigned integer in [0, 255]"
conversion of the numeric parser. Per the library: reject a string whose
first non-space character is a minus, require at least one digit to be
consumed, and — because the end pointer is NULL — require the whole
string to be consumed and the value to be at most 255. -/
def xtables_strtoui255 (l : List Char) : Option Nat :=
  match l.dropWhile cIsSpace with
  | '-' :: _ => none
  | _ =>
    match strtoumax0 l with
    | none => none
    | some (v, rest) => if v ≤ 255 && rest.isEmpty then some v else none

/-- The `strchr(buffer, '/')` split of `parse_icmpv6_type` (lines
127-135): the characters before the first slash, and — when a slash is
present — the characters after it. -/
def splitSlash : List Char → List Char × Option (List Char)
  | [] => ([], none)
  | c :: r =>
    if c == '/' then ([], some r)
    else
      let (b, a) := splitSlash r
      (c :: b, a)

/-- The numeric fallback branch of `parse_icmpv6_type` (lines 126-151):
split on the first slash; the part before must convert to a type in
[0, 255] (else the "Invalid ICMPv6 type" exit with that part echoed);
with a slash the part after must convert to a code in [0, 255] (else the
"Invalid ICMPv6 code" exit), giving `code[0] = code[1] = code`; without a
slash the codes default to `0` and `0xFF`. -/
def parseNumeric (l : List Char) : Except ParseErr (Nat × Nat × Nat) :=
  match splitSlash l with
  | (before, slashed) =>
    match xtables_strtoui255 before with
    | none => .error (.invalidType (String.mk before))
    | some n =>
      match slashed with
      | some after =>
        match xtables_strtoui255 after with
        | none => .error (.invalidCode (String.mk after))
        | some c => .ok (n, c, c)
      | none => .ok (n, 0, 255)

/-- The whole of `parse_icmpv6_type` (lines 101-152): scan the name table
first; a unique candidate decides the result, a second candidate is the
"Ambiguous ICMPv6 type" exit, and no candidate falls through to the
numeric branch. The result triple is `(type, code[0], code[1])`. -/
def parse_icmpv6_type (s : String) : Except ParseErr (Nat × Nat × Nat) :=
  match scanLoop s.data icmpv6_codes none with
  | .error (a, b) => .error (.ambiguous s a b)
  | .ok (some e) => .ok (e.type, e.code_min, e.code_max)
  | .ok none => parseNumeric s.data

/-- Modelled from the spec: one `%u` conversion of the C library `sscanf`
(not under src/), as used by `parse_icmpv6_type_range`. Skips leading
whitespace, accepts an optional sign, then needs at least one decimal
digit; the converted value is stored into a 32-bit unsigned object, hence
the reductions modulo `2^32` (a minus sign wraps around). Returns the
value and the unconsumed remainder. -/
def scanfU (l : List Char) : Option (Nat × List Char) :=
  match l.dropWhile cIsSpace with
  | '+' :: c :: r =>
    if '0' ≤ c ∧ c ≤ '9' then
      let p := parseDigits 10 (c :: r) 0
      some (p.1 % 2 ^ 32, p.2)
    else none
  | '-' :: c :: r =>
    if '0' ≤ c ∧ c ≤ '9' then
      let p := parseDigits 10 (c :: r) 0
      some ((2 ^ 32 - p.1 % 2 ^ 32) % 2 ^ 32, p.2)
    else none
  | c :: r =>
    if '0' ≤ c ∧ c ≤ '9' then
      let p := parseDigits 10 (c :: r) 0
      some (p.1 % 2 ^ 32, p.2)
    else none
  | [] => none

/-- `parse_icmpv6_type_range` (lines 154-166): `sscanf(s, "%u:%u$", ...)`
must convert both `%u` items (the literal `:` must match in between; the
trailing literal `$` cannot influence the returned count of 2, so nothing
after the second number is examined), and then `min <= max`, `min <= 255`
and `max <= 255` must hold; otherwise the "Invalid ICMPv6 type range"
exit with the whole input echoed. -/
def parse_icmpv6_type_range (s : String) : Except ParseErr (Nat × Nat) :=
  match scanfU s.data with
  | none => .error (.invalidRange s)
  | some (mn, rest) =>
    match rest with
    | ':' :: r2 =>
      match scanfU r2 with
      | none => .error (.invalidRange s)
      | some (mx, _) =>
        if mn ≤ mx ∧ mn ≤ 255 ∧ mx ≤ 255 then .ok (mn, mx)
        else .error (.invalidRange s)
    | _ => .error (.invalidRange s)

/-- `print_icmpv6type` (lines 194-224), as the exact character sequence
the C function prints. Unless `numeric` is set, the first table entry
whose (type, code_min, code_max) triple matches exactly is printed as
`" [!]name"`; otherwise the numeric form is printed: `" !"` first when
inverted, then `"type N"`, then `" code N"` for a single code,
`" codes N-M"` for a proper sub-range, and nothing for the full 0-255
span. -/
def print_icmpv6type (t cmin cmax : Nat) (invert numeric : Bool) : String :=
  match (if numeric then none
         else icmpv6_codes.find? fun e =>
           e.type == t && e.code_min == cmin && e.code_max == cmax) with
  | some e => " " ++ (if invert then "!" else "") ++ e.name
  | none =>
    (if invert then " !" else "") ++ "type " ++ Nat.repr t ++
    (if cmin == cmax then " code " ++ Nat.repr cmin
     else if cmin != 0 || cmax != 255 then
       " codes " ++ Nat.repr cmin ++ "-" ++ Nat.repr cmax
     else "")

/-- The `MatchSpec::Exact` variant: the parsed single-type criterion
(`struct ip6t_icmp_type` with the `IP6T_ICMP_INV` bit of `invflags`). -/
structure ExactSpec where
  type : Nat
  code_min : Nat
  code_max : Nat
  inverted : Bool
deriving DecidableEq

/-- The `O_ICMPV6_TYPE` branch of `icmp6_parse` (lines 181-186): run
`parse_icmpv6_type` on the argument and record the invert flag. -/
def parse_type_selector (raw : String) (inverted : Bool) :
    Except ParseErr ExactSpec :=
  (parse_icmpv6_type raw).map fun tc => ⟨tc.1, tc.2.1, tc.2.2, inverted⟩

/-- The `O_ICMPV6_TYPE` branch of `icmp6_save` (lines 255-261), as the
exact character sequence printed: `" !"` when inverted, then
`" --icmpv6-type N"`, then `"/C"` with `C = code[0]` exactly when the
code range is not the full `0..0xFF` span. -/
def icmp6_save (e : ExactSpec) : String :=
  (if e.inverted then " !" else "") ++ " --icmpv6-type " ++ Nat.repr e.type ++
  (if e.code_min != 0 || e.code_max != 255 then "/" ++ Nat.repr e.code_min else "")

/-- One step of the help-listing loop of `print_icmpv6types` (lines
67-78): relative to the previous entry (`none` at index 0), an entry of
the same type and the same code range is appended parenthesised, an entry
of the same type but another code range starts an indented continuation
line, and anything else starts a new top-level line. -/
def listingFrag (prev : Option IcmpEntry) (e : IcmpEntry) : String :=
  match prev with
  | some p =>
    if e.type == p.type then
      if e.code_min == p.code_min && e.code_max == p.code_max then
        " (" ++ e.name ++ ")"
      else "\n   " ++ e.name
    else "\n" ++ e.name
  | none => "\n" ++ e.name

/-- The fragments printed by the loop of `print_icmpv6types`, threading
each entry as the predecessor of the next. -/
def listingFrags : Option IcmpEntry → List IcmpEntry → List String
  | _, [] => []
  | prev, e :: rest => listingFrag prev e :: listingFrags (some e) rest

/-- `print_icmpv6types` (lines 61-80): the header, the per-entry
fragments, and the final newline. -/
def print_icmpv6types : String :=
  "Valid ICMPv6 Types:" ++ String.join (listingFrags none icmpv6_codes) ++ "\n"

end Icmp6

namespace Icmp6

/-- The candidates of an input, in table order: the entries whose name
the input starts, case-insensitively. -/
def candidates (s : String) : List IcmpEntry :=
  icmpv6_codes.filter fun e => ciStarts s.data e.name.data

lemma ciStarts_eq_isPrefixOf (a b : List Char) :
    ciStarts a b = (a.map Char.toLower).isPrefixOf (b.map Char.toLower) := by
  induction a generalizing b with
  | nil => cases b <;> rfl
  | cons x xs ih =>
    cases b with
    | nil => rfl
    | cons y ys => simp [ciStarts, List.isPrefixOf, ih]

lemma scanLoop_some (inp : List Char) (l : List IcmpEntry) (m : IcmpEntry) :
    scanLoop inp l (some m) =
      match l.filter (fun e => ciStarts inp e.name.data) with
      | [] => .ok (some m)
      | e :: _ => .error (m.name, e.name) := by
  induction l with
  | nil => rfl
  | cons e rest ih =>
    by_cases h : ciStarts inp e.name.data = true
    · simp [scanLoop, h, List.filter_cons]
    · simp [scanLoop, h, List.filter_cons, ih]

lemma scanLoop_none (inp : List Char) (l : List IcmpEntry) :
    scanLoop inp l none =
      match l.filter (fun e => ciStarts inp e.name.data) with
      | [] => .ok none
      | [e] => .ok (some e)
      | a :: b :: _ => .error (a.name, b.name) := by
  induction l with
  | nil => rfl
  | cons e rest ih =>
    by_cases h : ciStarts inp e.name.data = true
    · simp only [scanLoop, h, if_pos, List.filter_cons, scanLoop_some]
      cases hf : rest.filter (fun e => ciStarts inp e.name.data) <;> simp [hf]
    · simp [scanLoop, h, List.filter_cons, ih]

/-- C2: the name resolver scans the catalogue in table order, an entry
being a candidate exactly when the input is a case-insensitive prefix of
its name; a unique candidate over the whole scan yields that entry's
(type, code_min, code_max), and a second candidate yields the Ambiguous
error naming the first and second candidates. -/
theorem name_resolver_correct (s : String) :
    (∀ e ∈ icmpv6_codes,
      ciStarts s.data e.name.data = true ↔
        (s.data.map Char.toLower) <+: (e.name.data.map Char.toLower)) ∧
    (∀ e, candidates s = [e] →
      parse_icmpv6_type s = .ok (e.type, e.code_min, e.code_max)) ∧
    (∀ a b rest, candidates s = a :: b :: rest →
      parse_icmpv6_type s = .error (.ambiguous s a.name b.name)) := by
  refine ⟨fun e _ => ?_, fun e h => ?_, fun a b rest h => ?_⟩
  · rw [ciStarts_eq_isPrefixOf]
    exact List.isPrefixOf_iff_prefix
  · unfold parse_icmpv6_type
    rw [scanLoop_none]
    unfold candidates at h
    rw [h]
  · unfold parse_icmpv6_type
    rw [scanLoop_none]
    unfold candidates at h
    rw [h]

theorem name_resolver_correct_witness :
    parse_icmpv6_type "ping" = .ok (128, 0, 255) ∧
    parse_icmpv6_type "ttl" =
      .error (.ambiguous "ttl" "ttl-exceeded" "ttl-zero-during-transit") :=
  ⟨(name_resolver_correct "ping").2.1 ⟨"ping", 128, 0, 255⟩ (by decide),
   (name_resolver_correct "ttl").2.2 ⟨"ttl-exceeded", 3, 0, 255⟩
     ⟨"ttl-zero-during-transit", 3, 0, 0⟩
     [⟨"ttl-zero-during-reassembly", 3, 1, 1⟩] (by decide)⟩

end Icmp6

namespace Icmp6

lemma splitSlash_of_not_mem (l : List Char) (h : '/' ∉ l) :
    splitSlash l = (l, none) := by
  induction l with
  | nil => rfl
  | cons c r ih =>
    simp only [List.mem_cons, not_or] at h
    simp [splitSlash, beq_iff_eq, Ne.symm h.1, ih h.2]

lemma splitSlash_append (b a : List Char) (h : '/' ∉ b) :
    splitSlash (b ++ '/' :: a) = (b, some a) := by
  induction b with
  | nil => simp [splitSlash]
  | cons c r ih =>
    simp only [List.mem_cons, not_or] at h
    simp [splitSlash, beq_iff_eq, Ne.symm h.1, ih h.2]

/-- C3: the numeric parser splits on the first slash; the portion before
it (the whole string when there is no slash) must convert to a value in
[0, 255] or the parse fails with the invalid-type error echoing that
portion; with a slash the portion after it must convert to a value in
[0, 255] or the parse fails with the invalid-code error, and on success
the code range is that single value; without a slash the code range
defaults to [0, 255]. In particular "255", "1/6", "256" and "1/256"
behave as the spec's examples state. -/
theorem numeric_parser_correct (s : String) :
    ('/' ∉ s.data →
      parseNumeric s.data =
        match xtables_strtoui255 s.data with
        | some n => .ok (n, 0, 255)
        | none => .error (.invalidType s)) ∧
    (∀ before after, s.data = before ++ '/' :: after → '/' ∉ before →
      parseNumeric s.data =
        match xtables_strtoui255 before with
        | none => .error (.invalidType (String.mk before))
        | some n =>
          match xtables_strtoui255 after with
          | none => .error (.invalidCode (String.mk after))
          | some c => .ok (n, c, c)) ∧
    parseNumeric "255".data = .ok (255, 0, 255) ∧
    parseNumeric "1/6".data = .ok (1, 6, 6) ∧
    parseNumeric "256".data = .error (.invalidType "256") ∧
    parseNumeric "1/256".data = .error (.invalidCode "256") := by
  refine ⟨fun h => ?_, fun before after hs h => ?_, rfl, rfl, rfl, rfl⟩
  · cases s with
    | mk l =>
      unfold parseNumeric
      rw [splitSlash_of_not_mem l h]
      cases hx : xtables_strtoui255 l <;> simp [hx]
  · unfold parseNumeric
    rw [hs, splitSlash_append before after h]

theorem numeric_parser_correct_witness :
    parseNumeric "1/6".data = .ok (1, 6, 6) := by
  have h := (numeric_parser_correct "1/6").2.1 ['1'] ['6'] rfl (by decide)
  rw [h]
  rfl

/-- C4: the claim requires trailing garbage after the second number to be
rejected, but the code's scan pattern ends in a literal dollar sign that
cannot anchor anything: once both numbers and the colon have matched,
sscanf has already returned 2 and nothing later in the input is examined,
so "5:10x" and "5:10$" are both accepted as the range (5, 10). -/
theorem range_parser_trailing_garbage :
    parse_icmpv6_type_range "5:10x" = .ok (5, 10) ∧
    parse_icmpv6_type_range "5:10$" = .ok (5, 10) ∧
    parse_icmpv6_type_range "5:10" = .ok (5, 10) :=
  ⟨rfl, rfl, rfl⟩

/-- C5: on success the range parser returns the two parsed components,
which necessarily satisfy min ≤ max with both at most 255; the spec's
three examples evaluate as stated. -/
theorem range_parser_correct (s : String) :
    (∀ a b, parse_icmpv6_type_range s = .ok (a, b) →
      a ≤ b ∧ a ≤ 255 ∧ b ≤ 255) ∧
    parse_icmpv6_type_range "0:255" = .ok (0, 255) ∧
    parse_icmpv6_type_range "5:5" = .ok (5, 5) ∧
    parse_icmpv6_type_range "10:5" = .error (.invalidRange "10:5") := by
  refine ⟨fun a b h => ?_, rfl, rfl, rfl⟩
  unfold parse_icmpv6_type_range at h
  split at h
  · cases h
  · split at h
    · split at h
      · cases h
      · split at h
        · rename_i hc
          simp only [Except.ok.injEq, Prod.mk.injEq] at h
          obtain ⟨rfl, rfl⟩ := h
          exact ⟨hc.1, hc.2.1, hc.2.2⟩
        · cases h
    · cases h

end Icmp6

namespace Icmp6

theorem range_parser_correct_witness :
    (0 : Nat) ≤ 255 ∧ (0 : Nat) ≤ 255 ∧ (255 : Nat) ≤ 255 :=
  (range_parser_correct "0:255").1 0 255 rfl

/-- C7: on the empty input every catalogue entry passes the prefix test,
so the scan fails with the Ambiguous error naming the first two entries
of the table; the outcome is this error, not a no-match fallthrough to
the numeric branch. -/
theorem empty_input_ambiguous :
    (∀ e ∈ icmpv6_codes, ciStarts "".data e.name.data = true) ∧
    parse_icmpv6_type "" =
      .error (.ambiguous "" "destination-unreachable" "no-route") :=
  ⟨fun _ _ => rfl, rfl⟩

theorem empty_input_ambiguous_witness :
    ciStarts "".data (IcmpEntry.mk "redirect" 137 0 255).name.data = true :=
  empty_input_ambiguous.1 ⟨"redirect", 137, 0, 255⟩ (by decide)

/-- C10: the numeric conversion runs with base 0, so hexadecimal (and
octal) notations are accepted: "0x80" matches no catalogue name and
parses numerically to type 128 with the default code range, and
"0x80/0x6" parses to type 128 with the single code 6. -/
theorem numeric_base0_hex :
    parse_icmpv6_type "0x80" = .ok (128, 0, 255) ∧
    parse_icmpv6_type "0x80/0x6" = .ok (128, 6, 6) ∧
    parse_icmpv6_type "010" = .ok (8, 0, 255) :=
  ⟨rfl, rfl, rfl⟩

/-- C1: the claim's save string omits the leading token-separator space
the C function always prints: the rendered save text of the criterion
Exact(128, 0, 255, false) is " --icmpv6-type 128", not
"--icmpv6-type 128". -/
theorem save_literal_counterexample :
    parse_type_selector "echo-request" false = .ok ⟨128, 0, 255, false⟩ ∧
    icmp6_save ⟨128, 0, 255, false⟩ ≠ "--icmpv6-type 128" :=
  ⟨rfl, by decide⟩

/-- C1 (amended): parsing "echo-request" with inverted=false yields the
Exact criterion (128, 0, 255, false); its save form is the flag and the
numeric argument "128" behind the leading token-separator space, i.e.
" --icmpv6-type 128"; and re-parsing that argument "128" through the
numeric path yields the same criterion. -/
theorem save_roundtrip_echo_request :
    parse_type_selector "echo-request" false = .ok ⟨128, 0, 255, false⟩ ∧
    icmp6_save ⟨128, 0, 255, false⟩ = " --icmpv6-type " ++ "128" ∧
    parse_type_selector "128" false = .ok ⟨128, 0, 255, false⟩ :=
  ⟨rfl, by decide, rfl⟩

/-- C6: the claim's rendered strings omit the leading separator space of
the symbolic form: the criterion (1, 0, 0, false) with symbolic output
renders as " no-route", not "no-route". -/
theorem formatter_counterexample :
    print_icmpv6type 1 0 0 false false ≠ "no-route" ∧
    print_icmpv6type 1 0 0 false false = " no-route" :=
  ⟨by decide, rfl⟩

lemma find?_eq_head?_filter (p : α → Bool) (l : List α) :
    l.find? p = (l.filter p).head? := by
  induction l with
  | nil => rfl
  | cons x xs ih =>
    by_cases h : p x = true
    · rw [List.find?_cons_of_pos _ h, List.filter_cons, if_pos h]
      rfl
    · rw [List.find?_cons_of_neg _ h, List.filter_cons, if_neg h, ih]

/-- C6 (amended): with numeric_mode false the formatter renders the first
table entry whose triple matches exactly, as the entry name behind a
separator space, with "!" inserted exactly when inverted; when no triple
matches or numeric_mode is true it renders numerically — " !" first when
inverted, then "type N", with suffix " code N" for a single code,
" codes N-M" for a proper sub-range and nothing for the full [0,255]
span. The four example renderings carry the leading separator space in
the symbolic cases and none in the uninverted numeric case. -/
theorem formatter_correct (t cmin cmax : Nat) (inv num : Bool) :
    (∀ e, num = false →
      (icmpv6_codes.filter fun e =>
          e.type == t && e.code_min == cmin && e.code_max == cmax).head? =
        some e →
      print_icmpv6type t cmin cmax inv false =
        " " ++ (if inv then "!" else "") ++ e.name) ∧
    ((num = true ∨ (icmpv6_codes.filter fun e =>
          e.type == t && e.code_min == cmin && e.code_max == cmax) = []) →
      print_icmpv6type t cmin cmax inv num =
        (if inv then " !" else "") ++ "type " ++ Nat.repr t ++
        (if cmin = cmax then " code " ++ Nat.repr cmin
         else if cmin ≠ 0 ∨ cmax ≠ 255 then
           " codes " ++ Nat.repr cmin ++ "-" ++ Nat.repr cmax
         else "")) ∧
    print_icmpv6type 1 0 0 false false = " no-route" ∧
    print_icmpv6type 1 0 0 true false = " !no-route" ∧
    print_icmpv6type 1 0 255 false false = " destination-unreachable" ∧
    print_icmpv6type 200 0 255 false false = "type 200" := by
  refine ⟨fun e hnum hhead => ?_, fun hnum => ?_, rfl, rfl, rfl, rfl⟩
  · subst hnum
    unfold print_icmpv6type
    rw [if_neg (by simp), find?_eq_head?_filter, hhead]
  · have hnone : (if num then none
        else icmpv6_codes.find? fun e =>
          e.type == t && e.code_min == cmin && e.code_max == cmax) = none := by
      rcases hnum with h | h
      · simp [h]
      · rw [find?_eq_head?_filter]
        simp [h]
    unfold print_icmpv6type
    rw [hnone]
    by_cases h1 : cmin = cmax
    · simp [h1]
    · by_cases h2 : cmin = 0 <;> by_cases h3 : cmax = 255 <;>
        simp [h1, h2, h3, bne]

theorem formatter_correct_witness :
    print_icmpv6type 1 0 0 false false = " no-route" ∧
    print_icmpv6type 200 0 255 true true =
      " !" ++ "type " ++ Nat.repr 200 ++ "" :=
  ⟨(formatter_correct 1 0 0 false false).1 ⟨"no-route", 1, 0, 0⟩ rfl
      (by decide),
   by
    have h := (formatter_correct 200 0 255 true true).2.1 (Or.inl rfl)
    simpa using h⟩

end Icmp6

namespace Icmp6

/-- C8: the help listing walks the catalogue in table order; at every
position the printed fragment is determined by the comparison with the
predecessor entry — same type and same code range appends the name
parenthesised to the previous line, same type with a different code range
starts an indented continuation line, and a differing type (or position
0) starts a new top-level line; the full listing is the header followed
by the fragments and a final newline. -/
theorem help_listing_correct :
    (∀ i, i < icmpv6_codes.length →
      (listingFrags none icmpv6_codes).getD i "" =
        (let e := icmpv6_codes.getD i ⟨"", 0, 0, 0⟩
         if i = 0 then "\n" ++ e.name
         else
           let p := icmpv6_codes.getD (i - 1) ⟨"", 0, 0, 0⟩
           if p.type = e.type then
             if p.code_min = e.code_min ∧ p.code_max = e.code_max then
               " (" ++ e.name ++ ")"
             else "\n   " ++ e.name
           else "\n" ++ e.name)) ∧
    print_icmpv6types =
      "Valid ICMPv6 Types:" ++ String.join (listingFrags none icmpv6_codes) ++
        "\n" :=
  ⟨by decide, rfl⟩

theorem help_listing_correct_witness :
    (listingFrags none icmpv6_codes).getD 10 "" = " (ttl-exceeded)" ∧
    (listingFrags none icmpv6_codes).getD 11 "" =
      "\n   ttl-zero-during-transit" ∧
    (listingFrags none icmpv6_codes).getD 13 "" = "\nparameter-problem" := by
  refine ⟨?_, ?_, ?_⟩
  · rw [help_listing_correct.1 10 (by decide)]
    decide
  · rw [help_listing_correct.1 11 (by decide)]
    decide
  · rw [help_listing_correct.1 13 (by decide)]
    decide

end Icmp6

namespace Icmp6

set_option maxRecDepth 10000 in
lemma entries_facts : ∀ e ∈ icmpv6_codes,
    (e.type ≤ 255 ∧ e.code_min ≤ 255 ∧ e.code_max ≤ 255) ∧
      (e.code_min = e.code_max ∨ (e.code_min = 0 ∧ e.code_max = 255)) ∧
      e.name.data ≠ [] ∧ 97 ≤ (e.name.data.headD ' ').toNat := by decide

set_option maxRecDepth 10000 in
lemma strtoui_repr : ∀ n, n < 256 →
    xtables_strtoui255 (Nat.repr n).data = some n := by decide

set_option maxRecDepth 10000 in
lemma repr_facts : ∀ n, n < 256 →
    '/' ∉ (Nat.repr n).data ∧ (Nat.repr n).data ≠ [] ∧
      ((Nat.repr n).data.headD ' ').toNat ≤ 57 := by decide

lemma ciStarts_low (c d : Char) (r ls : List Char) (hc : c.toNat ≤ 57)
    (hd : 97 ≤ d.toNat) : ciStarts (c :: r) (d :: ls) = false := by
  have hcl : c.toLower = c := by
    unfold Char.toLower
    rw [if_neg (by omega)]
  have hdl : d.toLower = d := by
    unfold Char.toLower
    rw [if_neg (by omega)]
  have hne : (c.toLower == d.toLower) = false := by
    rw [hcl, hdl]
    have hcd : c ≠ d := by
      intro hcontra
      rw [hcontra] at hc
      omega
    exact beq_eq_false_iff_ne.mpr hcd
  simp [ciStarts, hne]

lemma scanLoop_no_candidate (inp : List Char) (l : List IcmpEntry)
    (h : ∀ e ∈ l, ciStarts inp e.name.data = false) :
    scanLoop inp l none = .ok none := by
  rw [scanLoop_none]
  have hnil : l.filter (fun e => ciStarts inp e.name.data) = [] :=
    List.filter_eq_nil_iff.mpr fun e he => by simp [h e he]
  rw [hnil]

lemma scanLoop_digit (c : Char) (r : List Char) (hc : c.toNat ≤ 57) :
    scanLoop (c :: r) icmpv6_codes none = .ok none := by
  apply scanLoop_no_candidate
  intro e he
  obtain ⟨hne, hhd⟩ := (entries_facts e he).2.2
  cases hd : e.name.data with
  | nil => exact absurd hd hne
  | cons d ls =>
    rw [hd] at hhd
    simp only [List.headD_cons] at hhd
    exact ciStarts_low c d r ls hc hhd

lemma scanLoop_none_ok_mem (inp : List Char) (l : List IcmpEntry)
    (e : IcmpEntry) (h : scanLoop inp l none = .ok (some e)) : e ∈ l := by
  rw [scanLoop_none] at h
  cases hf : l.filter (fun x => ciStarts inp x.name.data) with
  | nil => rw [hf] at h; simp at h
  | cons a tl =>
    cases tl with
    | nil =>
      rw [hf] at h
      simp only [Except.ok.injEq, Option.some.injEq] at h
      subst h
      exact List.mem_of_mem_filter (hf ▸ List.mem_cons_self a [])
    | cons b tl2 => rw [hf] at h; simp at h

lemma strtoui_le (l : List Char) (v : Nat)
    (h : xtables_strtoui255 l = some v) : v ≤ 255 := by
  unfold xtables_strtoui255 at h
  split at h
  · cases h
  · split at h
    · cases h
    · split at h
      · rename_i hcond
        simp only [Option.some.injEq] at h
        subst h
        simp only [Bool.and_eq_true, decide_eq_true_eq] at hcond
        exact hcond.1
      · cases h

lemma parseNumeric_ok (l : List Char) (t cmin cmax : Nat)
    (h : parseNumeric l = .ok (t, cmin, cmax)) :
    t ≤ 255 ∧ cmin ≤ 255 ∧ cmax ≤ 255 ∧
      (cmin = cmax ∨ (cmin = 0 ∧ cmax = 255)) := by
  unfold parseNumeric at h
  split at h
  rename_i before slashed
  split at h
  · cases h
  · rename_i n hn
    split at h
    · rename_i after
      split at h
      · cases h
      · rename_i c hc
        simp only [Except.ok.injEq, Prod.mk.injEq] at h
        obtain ⟨rfl, rfl, rfl⟩ := h
        exact ⟨strtoui_le _ _ hn, strtoui_le _ _ hc, strtoui_le _ _ hc,
          Or.inl rfl⟩
    · simp only [Except.ok.injEq, Prod.mk.injEq] at h
      obtain ⟨rfl, rfl, rfl⟩ := h
      exact ⟨strtoui_le _ _ hn, by omega, by omega, Or.inr ⟨rfl, rfl⟩⟩

lemma parse_via_numeric (s : String) (c : Char) (r : List Char)
    (hs : s.data = c :: r) (hc : c.toNat ≤ 57) :
    parse_icmpv6_type s = parseNumeric s.data := by
  unfold parse_icmpv6_type
  rw [hs, scanLoop_digit c r hc]

end Icmp6

namespace Icmp6

/-- C9: every triple the single-type parse entry point can produce has
code_min = code_max or (code_min, code_max) = (0, 255) — every catalogue
entry's triple has this shape and both numeric outcomes do too; hence the
save form, which prints only code_min and only when the range is not
[0, 255], loses no information: the save text factors as the flag plus a
numeric argument, and re-parsing that argument recovers the same triple. -/
theorem parse_shape_save_roundtrip (s : String) (t cmin cmax : Nat)
    (h : parse_icmpv6_type s = .ok (t, cmin, cmax)) :
    (cmin = cmax ∨ (cmin = 0 ∧ cmax = 255)) ∧
    (∀ e ∈ icmpv6_codes,
      e.code_min = e.code_max ∨ (e.code_min = 0 ∧ e.code_max = 255)) ∧
    (∀ inv : Bool,
      icmp6_save ⟨t, cmin, cmax, inv⟩ =
        ((if inv then " !" else "") ++ " --icmpv6-type " ++ Nat.repr t) ++
          (if cmin = 0 ∧ cmax = 255 then "" else "/" ++ Nat.repr cmin)) ∧
    parse_icmpv6_type
        (Nat.repr t ++
          (if cmin = 0 ∧ cmax = 255 then "" else "/" ++ Nat.repr cmin)) =
      .ok (t, cmin, cmax) := by
  have hb : t ≤ 255 ∧ cmin ≤ 255 ∧ cmax ≤ 255 ∧
      (cmin = cmax ∨ (cmin = 0 ∧ cmax = 255)) := by
    unfold parse_icmpv6_type at h
    split at h
    · cases h
    · rename_i e heq
      have hmem := scanLoop_none_ok_mem _ _ _ heq
      have hfe := entries_facts e hmem
      simp only [Except.ok.injEq, Prod.mk.injEq] at h
      obtain ⟨rfl, rfl, rfl⟩ := h
      exact ⟨hfe.1.1, hfe.1.2.1, hfe.1.2.2, hfe.2.1⟩
    · exact parseNumeric_ok _ _ _ _ h
  obtain ⟨ht, hcmin, hcmax, hshape⟩ := hb
  obtain ⟨hnoslash, hne, hhd⟩ := repr_facts t (by omega)
  obtain ⟨c, r, hcr⟩ : ∃ c r, (Nat.repr t).data = c :: r := by
    cases hd : (Nat.repr t).data with
    | nil => exact absurd hd hne
    | cons c r => exact ⟨c, r, rfl⟩
  have hcd : c.toNat ≤ 57 := by
    rw [hcr] at hhd
    simpa using hhd
  refine ⟨hshape, fun e he => (entries_facts e he).2.1, fun inv => ?_, ?_⟩
  · by_cases hfull : cmin = 0 ∧ cmax = 255
    · rw [if_pos hfull]
      unfold icmp6_save
      simp [hfull.1, hfull.2]
    · rw [if_neg hfull]
      unfold icmp6_save
      have hbne : ((cmin != 0 || cmax != 255) = true) := by
        rcases not_and_or.mp hfull with hx | hx <;> simp [bne, hx]
      simp only [hbne, if_pos]
  · by_cases hfull : cmin = 0 ∧ cmax = 255
    · rw [if_pos hfull]
      have hargdata : (Nat.repr t ++ "").data = c :: r := by
        rw [String.data_append]
        simpa using hcr
      rw [parse_via_numeric _ c r hargdata hcd, hargdata, ← hcr]
      unfold parseNumeric
      rw [splitSlash_of_not_mem _ hnoslash]
      simp only [strtoui_repr t (by omega : t < 256)]
      rw [hfull.1, hfull.2]
    · have hc2 : cmin = cmax := by
        rcases hshape with hx | hx
        · exact hx
        · exact absurd hx hfull
      rw [if_neg hfull]
      have hargdata :
          (Nat.repr t ++ ("/" ++ Nat.repr cmin)).data =
            c :: (r ++ '/' :: (Nat.repr cmin).data) := by
        rw [String.data_append, String.data_append, hcr]
        rfl
      rw [parse_via_numeric _ c _ hargdata hcd, hargdata, ← List.cons_append,
        ← hcr]
      unfold parseNumeric
      rw [splitSlash_append _ _ hnoslash]
      simp only [strtoui_repr t (by omega : t < 256),
        strtoui_repr cmin (by omega : cmin < 256)]
      rw [hc2]

theorem parse_shape_save_roundtrip_witness :
    icmp6_save ⟨1, 6, 6, false⟩ =
      ((if false then " !" else "") ++ " --icmpv6-type " ++ Nat.repr 1) ++
        (if (6 : Nat) = 0 ∧ (6 : Nat) = 255 then ""
         else "/" ++ Nat.repr 6) ∧
    parse_icmpv6_type
        (Nat.repr 1 ++
          (if (6 : Nat) = 0 ∧ (6 : Nat) = 255 then ""
           else "/" ++ Nat.repr 6)) = .ok (1, 6, 6) :=
  ⟨(parse_shape_save_roundtrip "1/6" 1 6 6 rfl).2.2.1 false,
   (parse_shape_save_roundtrip "1/6" 1 6 6 rfl).2.2.2⟩

end Icmp6
